import Mathlib

/-!
Verification development for the chain-management core of an Albatross-style
proof-of-stake node (block-ingestion pipeline: `do_push`, `extend`,
`rebranch`, `check_and_commit`, `commit_accounts`, `revert_accounts`) and for
the BLS bit/byte utilities.

The pipeline of `blockchain/src/blockchain/push.rs` and the accounts
commit/revert of `blockchain-albatross/src/blockchain/accounts.rs` are
embedded shallowly: the persistent store is a value threaded through the
functions, a write transaction is a draft copy of the durable state
(accounts root included) that is installed on commit and discarded on abort,
and a Rust `panic!` / failed `assert!` / failed `expect` is the distinguished
outcome `panic`.  Collaborators that are not part of the sampled sources
(chain store internals, policy, verifiers, chain ordering tie-break and the
accounts engine) are modelled from the spec as oracle fields of the
`Blockchain` record.
-/

set_option maxHeartbeats 4000000
set_option maxRecDepth 100000

/- ### Association-list store primitives -/

/-- Lookup in an association list keyed by `Nat` (a hash or a height). -/
def lookupA {α : Type} : List (Nat × α) → Nat → Option α
  | [], _ => none
  | (k, v) :: rest, k2 => if k = k2 then some v else lookupA rest k2

/-- Insert-or-overwrite in an association list, keeping the key position. -/
def insertA {α : Type} : List (Nat × α) → Nat → α → List (Nat × α)
  | [], k, v => [(k, v)]
  | (k1, v1) :: rest, k, v =>
    if k1 = k then (k, v) :: rest else (k1, v1) :: insertA rest k v

/-- Remove the entry of a key from an association list. -/
def eraseA {α : Type} : List (Nat × α) → Nat → List (Nat × α)
  | [], _ => []
  | (k1, v1) :: rest, k => if k1 = k then rest else (k1, v1) :: eraseA rest k

theorem lookupA_insertA {α : Type} (l : List (Nat × α)) (k k2 : Nat) (v : α) :
    lookupA (insertA l k v) k2 = if k = k2 then some v else lookupA l k2 := by
  induction l with
  | nil => simp [insertA, lookupA]
  | cons p rest ih =>
    obtain ⟨k1, v1⟩ := p
    by_cases h1 : k1 = k
    · subst h1
      by_cases h2 : k1 = k2 <;> simp [insertA, lookupA, h2]
    · by_cases h2 : k1 = k2
      · subst h2
        simp [insertA, lookupA, h1, Ne.symm h1]
      · simp [insertA, lookupA, h1, h2, ih]

theorem lookupA_filter {α : Type} (p : Nat × α → Bool) (l : List (Nat × α))
    (k : Nat) (v : α) (hl : lookupA l k = some v) (hp : p (k, v) = true) :
    lookupA (l.filter p) k = some v := by
  induction l with
  | nil => simp [lookupA] at hl
  | cons q rest ih =>
    obtain ⟨k1, v1⟩ := q
    by_cases h1 : k1 = k
    · subst h1
      simp [lookupA] at hl
      subst hl
      simp [List.filter, hp, lookupA]
    · simp [lookupA, h1] at hl
      cases hq : p (k1, v1) <;> simp [List.filter, hq, lookupA, h1, ih hl]

/- ### BLS utilities (`bls/src/utils.rs`) -/

/-- Loop of `byte_to_le_bits`: push the low bit, shift right, `n` times. -/
def byteToLeBitsAux : Nat → Nat → List Bool
  | 0, _ => []
  | n + 1, b => (b % 2 != 0) :: byteToLeBitsAux n (b / 2)

/-- Transforms a u8 (modelled as a `Nat` below 256) into a vector of
little endian bits; the source loops exactly 8 times. -/
def byte_to_le_bits (b : Nat) : List Bool := byteToLeBitsAux 8 b

/-- Accumulating loop of `byte_from_le_bits`; `byte` and `base` are u8
values, so arithmetic is taken mod 256 (`base` uses `wrapping_mul`). -/
def byteFromLeBitsGo : List Bool → Nat → Nat → Nat
  | [], byte, _ => byte
  | bit :: rest, byte, base =>
    byteFromLeBitsGo rest (if bit then (byte + base) % 256 else byte) (base * 2 % 256)

/-- Transforms a vector of little endian bits into a u8; the source
`assert!(bits.len() <= 8)` is modelled by returning `none` (a panic) for
longer inputs. -/
def byte_from_le_bits (bits : List Bool) : Option Nat :=
  if bits.length ≤ 8 then some (byteFromLeBitsGo bits 0 1) else none

/- ### Data model of the ingestion core -/

/-- Closed error set of block verification; only `AccountsHashMismatch` is
inspected by the embedded code, the remaining variants of the source enum
are collapsed into `other`. -/
inductive BlockError where
  | AccountsHashMismatch : BlockError
  | other : Nat → BlockError
deriving DecidableEq, Repr

/-- Error kinds surfaced from push (`PushError` of the source). -/
inductive PushError where
  | Orphan : PushError
  | InvalidBlock : BlockError → PushError
  | InvalidFork : PushError
  | DuplicateTransaction : PushError
  | AccountsError : Nat → PushError
deriving DecidableEq, Repr

/-- Result of a successful push. -/
inductive PushResult where
  | Extended | Rebranched | Forked | Ignored | Known
deriving DecidableEq, Repr

/-- Verdict of `ChainOrdering::order_chains`. -/
inductive ChainOrdering where
  | Extend | Superior | Inferior | Unknown
deriving DecidableEq, Repr

/-- The non-extend part of the chain-ordering verdict, produced by the
spec-modelled tie-break oracle. -/
inductive ForkClass where
  | Superior | Inferior | Unknown
deriving DecidableEq, Repr

/-- A block, carrying the header fields the pipeline reads.  Hashes are
abstract `Nat` values and the block carries its own hash; the macro/micro
distinction and skip-ness are flags; `round` is the tendermint round of a
macro block; `txs` are the raw transaction hashes of a micro block body;
`validators` is the elected validator set of an election block (abstracted
to a key), `none` when absent. -/
structure Block where
  blockNumber : Nat
  round : Nat
  parentHash : Nat
  stateRoot : Nat
  seedEntropy : Nat
  hash : Nat
  isMacroB : Bool
  isSkipB : Bool
  txs : List Nat
  validators : Option Nat
deriving DecidableEq, Repr

/-- Per-block store metadata (`ChainInfo`). -/
structure ChainInfo where
  head : Block
  onMainChain : Bool
  mainChainSuccessor : Option Nat
deriving DecidableEq, Repr

/-- Modelled from the spec: `ChainInfo::from_block` creates the metadata of
a freshly accepted block: off-main-chain and without successor. -/
def ChainInfo.fromBlock (b : Block) : ChainInfo :=
  { head := b, onMainChain := false, mainChainSuccessor := none }

/-- Modelled from the spec: the durable chain store — chain infos keyed by
block hash, a height index (`get_blocks_at`), the head pointer and the
receipts keyed by block height. -/
structure Store where
  infos : List (Nat × ChainInfo)
  heightIdx : List (Nat × List Nat)
  headHash : Nat
  receipts : List (Nat × Nat)
deriving DecidableEq, Repr

/-- A write transaction: a draft of the durable state (store plus accounts
root).  Commit installs it, abort discards it. -/
structure Txn where
  store : Store
  acc : Nat
deriving DecidableEq, Repr

/-- In-memory blockchain state (`BlockchainState`).  Validator slot sets are
abstracted to keys. -/
structure BlockchainState where
  mainChain : ChainInfo
  headHash : Nat
  macroInfo : ChainInfo
  macroHeadHash : Nat
  electionHead : Block
  electionHeadHash : Nat
  currentSlots : Option Nat
  previousSlots : Option Nat
deriving DecidableEq, Repr

/-- Modelled from the spec: the policy oracle (pure functions
`last_macro_block`, `is_macro_block_at`, `is_election_block_at`, `epoch_at`
and the constant `MAX_EPOCHS_STORED`). -/
structure Policy where
  lastMacroBlock : Nat → Nat
  isMacroBlockAt : Nat → Bool
  isElectionBlockAt : Nat → Bool
  epochAt : Nat → Nat
  maxEpochsStored : Nat

/-- Event broadcast to subscribers. -/
inductive BlockchainEvent where
  | Extended : Nat → BlockchainEvent
  | Finalized : Nat → BlockchainEvent
  | EpochFinalized : Nat → BlockchainEvent
  | Rebranched : List (Nat × Block) → List (Nat × Block) → BlockchainEvent
deriving DecidableEq, Repr

/-- Block log sent on the log-notifier stream; tagged by provenance:
produced by an accounts commit (adoption) or an accounts revert. -/
inductive BlockLog where
  | applied : Nat → BlockLog
  | reverted : Nat → BlockLog
deriving DecidableEq, Repr

/-- Equivocation evidence event, carrying the two conflicting block
hashes. -/
inductive ForkEvent where
  | Detected : Nat → Nat → ForkEvent
deriving DecidableEq, Repr

/-- The blockchain: durable store, accounts root, in-memory state, and the
spec-modelled collaborators (policy, proposer oracle, the three verifier
stages, the post-commit state check, the accounts engine commit/revert, the
history-store replay lookup and the chain-ordering tie-break). -/
structure Blockchain where
  store : Store
  acc : Nat
  state : BlockchainState
  policy : Policy
  getProposerAt : Nat → Nat → Nat → Option Nat
  verifyHeader : Block → Bool → Option PushError
  verifyJustification : Block → Bool → Option PushError
  verifyBody : Block → Bool → Option PushError
  verifyBlockState : Block → Nat → Option PushError
  commitFn : Nat → Block → Except Nat (Nat × Nat)
  revertFn : Nat → Block → Nat → Except Nat Nat
  txInValidityWindow : Nat → Bool
  forkOrder : Block → ChainInfo → ForkClass

/-- Internal result of a pipeline stage: success, a returned `PushError`,
or a Rust panic / failed assertion. -/
inductive Res (α : Type) where
  | ok : α → Res α
  | err : PushError → Res α
  | panic : Res α
deriving DecidableEq

/-- Outcome of a whole push: result or error together with the blockchain
afterwards and the notified streams (`BlockchainEvent`s, block logs, fork
events), or a panic. -/
inductive PushOut where
  | ok : PushResult → Blockchain → List BlockchainEvent → List BlockLog → List ForkEvent → PushOut
  | err : PushError → Blockchain → List ForkEvent → PushOut
  | panic : PushOut

/- ### Chain store operations (modelled from the spec, store not in the
sampled sources) -/

/-- Add a hash to the height index. -/
def addToIdx (idx : List (Nat × List Nat)) (height h : Nat) : List (Nat × List Nat) :=
  match lookupA idx height with
  | none => insertA idx height [h]
  | some hs => if h ∈ hs then idx else insertA idx height (hs ++ [h])

/-- Modelled from the spec: `put_chain_info` writes the chain info under its
hash and indexes the hash under the block's height (the `include_body` flag
is immaterial here, bodies are always carried). -/
def putChainInfo (st : Store) (h : Nat) (ci : ChainInfo) : Store :=
  { st with infos := insertA st.infos h ci,
            heightIdx := addToIdx st.heightIdx ci.head.blockNumber h }

/-- Remove a hash from the height index at a given height. -/
def removeFromIdx (idx : List (Nat × List Nat)) (height h : Nat) : List (Nat × List Nat) :=
  match lookupA idx height with
  | none => idx
  | some hs => insertA idx height (hs.filter (fun x => x ≠ h))

/-- Modelled from the spec: `remove_chain_info(txn, hash, height)` deletes
the chain info stored under `hash` and unindexes `hash` at the *given*
height (which the source is responsible for passing correctly). -/
def removeChainInfo (st : Store) (h : Nat) (height : Nat) : Store :=
  { st with infos := eraseA st.infos h,
            heightIdx := removeFromIdx st.heightIdx height h }

/-- Modelled from the spec: `set_head`. -/
def setHead (st : Store) (h : Nat) : Store := { st with headHash := h }

/-- Modelled from the spec: `get_blocks_at` returns all known blocks at a
height, including off-main-chain ones, via the height index. -/
def getBlocksAt (st : Store) (height : Nat) : List Block :=
  ((lookupA st.heightIdx height).getD []).filterMap
    (fun h => (lookupA st.infos h).map ChainInfo.head)

/-- Modelled from the spec: `prune_epoch e` removes every chain-info entry
whose epoch is strictly older than `e`. -/
def pruneEpoch (pol : Policy) (e : Nat) (st : Store) : Store :=
  { st with
      infos := st.infos.filter (fun p => decide (e ≤ pol.epochAt p.2.head.blockNumber)),
      heightIdx := st.heightIdx.filter (fun p => decide (e ≤ pol.epochAt p.1)) }

/-- Fold of `put_chain_info` over a list of (hash, info) pairs inside a
write transaction. -/
def putAll (txn : Txn) (l : List (Nat × ChainInfo)) : Txn :=
  l.foldl (fun t p => { t with store := putChainInfo t.store p.1 p.2 }) txn

/-- Fold of `remove_chain_info` over a list of fork blocks, all removed
under one fixed height, as the failing branch of `rebranch` does. -/
def removeAll (st : Store) (l : List (Nat × ChainInfo)) (height : Nat) : Store :=
  l.foldl (fun s p => removeChainInfo s p.1 height) st

/- ### Accounts commit / revert
(`blockchain-albatross/src/blockchain/accounts.rs`) -/

/-- Empty the receipts table (`clear_receipts`). -/
def clearReceipts (txn : Txn) : Txn :=
  { txn with store := { txn.store with receipts := [] } }

/-- Store the receipts of a micro block under its height
(`put_receipts`). -/
def putReceipts (txn : Txn) (n r : Nat) : Txn :=
  { txn with store := { txn.store with receipts := insertA txn.store.receipts n r } }

/-- Embedding of `commit_accounts`: call the accounts engine; for macro
blocks clear the receipts (before the error check, as the source does), for
micro blocks store them; then compare the accounts hash with the block's
state root and fail with `InvalidBlock(AccountsHashMismatch)` on
disagreement.  Inherent construction is folded into the engine oracle
`commitFn`. -/
def commit_accounts (s : Blockchain) (block : Block) (txn : Txn) : Res (BlockLog × Txn) :=
  if block.isMacroB then
    match s.commitFn txn.acc block, clearReceipts txn with
    | .error e, _ => .err (.AccountsError e)
    | .ok (acc2, _), txn1 =>
      if block.stateRoot ≠ acc2 then .err (.InvalidBlock .AccountsHashMismatch)
      else .ok (.applied block.hash, { txn1 with acc := acc2 })
  else
    match s.commitFn txn.acc block with
    | .error e => .err (.AccountsError e)
    | .ok (acc2, rcpt) =>
      if block.stateRoot ≠ acc2 then .err (.InvalidBlock .AccountsHashMismatch)
      else .ok (.applied block.hash, putReceipts { txn with acc := acc2 } block.blockNumber rcpt)

/-- Embedding of `revert_accounts`: assert that the accounts hash equals the
micro block's state root (mismatch panics), load the receipts for the
block's height (absence panics), revert through the engine (an engine error
panics). -/
def revert_accounts (s : Blockchain) (txn : Txn) (block : Block) : Res (BlockLog × Txn) :=
  if block.stateRoot ≠ txn.acc then .panic
  else
    match lookupA txn.store.receipts block.blockNumber with
    | none => .panic
    | some rcpt =>
      match s.revertFn txn.acc block rcpt with
      | .error _ => .panic
      | .ok acc2 => .ok (.reverted block.hash, { txn with acc := acc2 })

/-- Embedding of `check_and_commit`: replay detection for micro blocks
(any transaction hash inside the validity window is
`DuplicateTransaction`), then `commit_accounts`, then the post-commit state
check. -/
def check_and_commit (s : Blockchain) (block : Block) (txn : Txn) : Res (BlockLog × Txn) :=
  if !block.isMacroB && block.txs.any s.txInValidityWindow then
    .err .DuplicateTransaction
  else
    match commit_accounts s block txn with
    | .err e => .err e
    | .panic => .panic
    | .ok (lg, txn2) =>
      match s.verifyBlockState block txn2.acc with
      | some e => .err e
      | none => .ok (lg, txn2)

/- ### The push pipeline (`blockchain/src/blockchain/push.rs`) -/

/-- Walk the candidate branch upward via `parent_hash`, collecting the fork
chain tip-first, until a block on the main chain — the common ancestor — is
reached.  A missing predecessor is the source's corrupted-store `expect`
(panic, `none` here); the fuel argument bounds the walk and exhaustion
(only possible on a cyclic, i.e. corrupted, store) is likewise `none`. -/
def collectFork (store : Store) :
    Nat → List (Nat × ChainInfo) → Nat × ChainInfo →
    Option (List (Nat × ChainInfo) × (Nat × ChainInfo))
  | 0, _, _ => none
  | fuel + 1, acc, current =>
    if current.2.onMainChain then some (acc, current)
    else
      match lookupA store.infos current.2.head.parentHash with
      | none => none
      | some prevInfo =>
        collectFork store fuel (acc ++ [current]) (current.2.head.parentHash, prevInfo)

/-- Walk the current main chain from the head down to (excluding) the
common ancestor: a macro block on the way panics, the predecessor is loaded
(missing predecessor panics), the block's accounts effects are reverted,
and after every revert the accounts root is asserted to equal the
predecessor's state root (mismatch panics).  Collects the revert chain
tip-first and the revert block logs in walk order. -/
def revertMain (s : Blockchain) :
    Nat → Txn → Nat × ChainInfo → Nat → List (Nat × ChainInfo) → List BlockLog →
    Res (List (Nat × ChainInfo) × Txn × List BlockLog)
  | 0, _, _, _, _, _ => .panic
  | fuel + 1, txn, current, ancestorHash, chain, logs =>
    if current.1 = ancestorHash then .ok (chain, txn, logs)
    else if current.2.head.isMacroB then .panic
    else
      match lookupA txn.store.infos current.2.head.parentHash with
      | none => .panic
      | some prevInfo =>
        match revert_accounts s txn current.2.head with
        | .err e => .err e
        | .panic => .panic
        | .ok (lg, txn1) =>
          if prevInfo.head.stateRoot ≠ txn1.acc then .panic
          else
            revertMain s fuel txn1 (current.2.head.parentHash, prevInfo) ancestorHash
              (chain ++ [current]) (logs ++ [lg])

/-- Outcome of re-committing the fork chain bottom-up: success with the
final transaction and accumulated logs, or failure at a fork block together
with the fork blocks above it, or a panic. -/
inductive ApplyRes where
  | ok : Txn → List BlockLog → ApplyRes
  | fail : Nat × ChainInfo → List (Nat × ChainInfo) → ApplyRes
  | panic : ApplyRes

/-- Re-commit each fork block bottom-up through `check_and_commit`,
stopping at the first failure. -/
def applyFork (s : Blockchain) : Txn → List (Nat × ChainInfo) → List BlockLog → ApplyRes
  | txn, [], logs => .ok txn logs
  | txn, fb :: rest, logs =>
    match check_and_commit s fb.2.head txn with
    | .err _ => .fail fb rest
    | .panic => .panic
    | .ok (lg, txn1) => applyFork s txn1 rest (logs ++ [lg])

/-- In-memory update after the head moved to `ci` (hash `bh`): on a macro
head install it as `macroInfo`; on an election head additionally install
the election head and rotate the slot sets, where a missing current slot
set or missing elected validators is an `unwrap` panic (`none` here). -/
def macroStateUpdate (st : BlockchainState) (ci : ChainInfo) (bh : Nat)
    (isElection : Bool) : Option BlockchainState :=
  if ci.head.isMacroB then
    if isElection then
      match st.currentSlots, ci.head.validators with
      | some old, some newSlots =>
        some { st with macroInfo := ci, macroHeadHash := bh,
                       electionHead := ci.head, electionHeadHash := bh,
                       previousSlots := some old, currentSlots := some newSlots }
      | _, _ => none
    else some { st with macroInfo := ci, macroHeadHash := bh }
  else some st

/-- Store writes of a successful extend: put the new chain info, put the
updated predecessor, set the head, and on election blocks prune epochs
older than `epoch_at(block_number) - MAX_EPOCHS_STORED`. -/
def extendStore (s : Blockchain) (blockHash : Nat) (ci1 prev1 : ChainInfo)
    (isElectionAt : Bool) (blockNumber : Nat) (txn1 : Txn) : Txn :=
  let st4 := setHead (putChainInfo (putChainInfo txn1.store blockHash ci1) ci1.head.parentHash prev1) blockHash
  let t4 : Txn := { txn1 with store := st4 }
  if isElectionAt then
    let st5 := pruneEpoch s.policy (s.policy.epochAt blockNumber - s.policy.maxEpochsStored) st4
    { t4 with store := st5 }
  else t4

/-- Tail of a successful extend after `check_and_commit`: mark the block
on-main, point the predecessor's successor at it, persist both, set the
head, prune on election blocks, commit the transaction, update the
in-memory state, and emit the discriminated event plus the block log. -/
def extendFinish (s : Blockchain) (blockHash : Nat) (chainInfo prevInfo : ChainInfo)
    (forkEvents : List ForkEvent) (blockLog : BlockLog) (txn1 : Txn) : PushOut :=
  let blockNumber := s.state.mainChain.head.blockNumber + 1
  let isMacroAt := s.policy.isMacroBlockAt blockNumber
  let isElectionAt := s.policy.isElectionBlockAt blockNumber
  let ci1 := { chainInfo with onMainChain := true }
  let prev1 := { prevInfo with mainChainSuccessor := some blockHash }
  let txn5 := extendStore s blockHash ci1 prev1 isElectionAt blockNumber txn1
  match macroStateUpdate s.state ci1 blockHash isElectionAt with
  | none => .panic
  | some st1 =>
    .ok .Extended
      { s with store := txn5.store, acc := txn5.acc,
               state := { st1 with mainChain := ci1, headHash := blockHash } }
      [if isElectionAt then .EpochFinalized blockHash
       else if isMacroAt then .Finalized blockHash
       else .Extended blockHash]
      [blockLog] forkEvents

/-- Embedding of `extend`: open a write transaction, run
`check_and_commit` (abort and return the error on failure), then finish. -/
def extendMain (s : Blockchain) (blockHash : Nat) (chainInfo prevInfo : ChainInfo)
    (forkEvents : List ForkEvent) : PushOut :=
  match check_and_commit s chainInfo.head { store := s.store, acc := s.acc } with
  | .err e => .err e s forkEvents
  | .panic => .panic
  | .ok (blockLog, txn1) =>
    extendFinish s blockHash chainInfo prevInfo forkEvents blockLog txn1

/-- Compute the main-chain successors along the tip-first fork chain: the
tip gets `none`, every other block the hash of the next block above it. -/
def forkSuccessors (fc : List (Nat × ChainInfo)) : List (Option Nat) :=
  none :: fc.dropLast.map (fun p => some p.1)

/-- Mark the fork chain on-main-chain with the successors of
`forkSuccessors` (still tip-first). -/
def annotateFork (fc : List (Nat × ChainInfo)) : List (Nat × ChainInfo) :=
  (fc.zip (forkSuccessors fc)).map
    (fun p => (p.1.1, { p.1.2 with onMainChain := true, mainChainSuccessor := p.2 }))

/-- Tail of a successful rebranch after the fork chain re-committed: clear
the main-chain flags of the reverted blocks, update the ancestor's
successor, persist the fork chain bottom-up with its new flags, set the
head, commit, update the in-memory state, and emit one `Rebranched` event
(reverted and adopted both listed bottom-up, as the source's reversed
iteration produces) plus the accumulated block logs. -/
def rebranchFinish (s : Blockchain) (forkChain revertChain : List (Nat × ChainInfo))
    (ancestor0 : Nat × ChainInfo) (txn2 : Txn) (logs2 : List BlockLog)
    (forkEvents : List ForkEvent) : PushOut :=
  let revertChain1 := revertChain.map
    (fun p => (p.1, { p.2 with onMainChain := false, mainChainSuccessor := none }))
  let txn3 := putAll txn2 revertChain1
  match forkChain.getLast? with
  | none => .panic
  | some bottom =>
    let txn4 := putAll txn3
      [(ancestor0.1, { ancestor0.2 with mainChainSuccessor := some bottom.1 })]
    let annotated := annotateFork forkChain
    let txn5 := putAll txn4 annotated.reverse
    match annotated.head? with
    | none => .panic
    | some newHead =>
      let txn6 : Txn := { txn5 with store := setHead txn5.store newHead.1 }
      match macroStateUpdate s.state newHead.2 newHead.1
          (s.policy.isElectionBlockAt newHead.2.head.blockNumber) with
      | none => .panic
      | some st1 =>
        .ok .Rebranched
          { s with store := txn6.store, acc := txn6.acc,
                   state := { st1 with mainChain := newHead.2, headHash := newHead.1 } }
          [.Rebranched (revertChain1.reverse.map (fun p => (p.1, p.2.head)))
                       (annotated.reverse.map (fun p => (p.1, p.2.head)))]
          logs2 forkEvents

/-- Embedding of `rebranch`: find the common ancestor (fork chain
tip-first); fail `InvalidFork` if the ancestor is below the latest macro
block; open a write transaction and revert the main chain down to the
ancestor; re-commit the fork chain bottom-up — on a failure abort, remove
the failing fork block and all fork blocks above it in a fresh committed
transaction (all under the *failing* block's height, as the source passes)
and fail `InvalidFork`; otherwise rewrite the chain-info flags, move the
head and finish. -/
def rebranch (s : Blockchain) (blockHash : Nat) (chainInfo : ChainInfo)
    (forkEvents : List ForkEvent) : PushOut :=
  match collectFork s.store (s.store.infos.length + 1) [] (blockHash, chainInfo) with
  | none => .panic
  | some (forkChain, ancestor0) =>
    if ancestor0.2.head.blockNumber < s.state.macroInfo.head.blockNumber then
      .err .InvalidFork s forkEvents
    else
      match revertMain s (s.store.infos.length + 1) { store := s.store, acc := s.acc }
          (s.state.headHash, s.state.mainChain) ancestor0.1 [] [] with
      | .err e => .err e s forkEvents
      | .panic => .panic
      | .ok (revertChain, txn1, logs1) =>
        match applyFork s txn1 forkChain.reverse logs1 with
        | .panic => .panic
        | .fail fb rest =>
          .err .InvalidFork
            { s with store := removeAll s.store (fb :: rest) fb.2.head.blockNumber }
            forkEvents
        | .ok txn2 logs2 =>
          rebranchFinish s forkChain revertChain ancestor0 txn2 logs2 forkEvents

/-- Fork detection for non-skip micro blocks: every stored non-skip micro
block at the same height with the same VRF entropy yields a fork-proof
event. -/
def detectForks (s : Blockchain) (b : Block) : List ForkEvent :=
  if !b.isSkipB && !b.isMacroB then
    ((getBlocksAt s.store b.blockNumber).filter
        (fun m => !m.isMacroB && !m.isSkipB)).filterMap
      (fun m => if b.seedEntropy = m.seedEntropy then some (.Detected b.hash m.hash) else none)
  else []

/-- Chain ordering: a block whose parent is the current head extends the
main chain; otherwise the spec-modelled tie-break oracle classifies the
branch as superior, inferior or unknown. -/
def orderChains (s : Blockchain) (b : Block) (prevInfo : ChainInfo) : ChainOrdering :=
  if b.parentHash = s.state.headHash then .Extend
  else
    match s.forkOrder b prevInfo with
    | .Superior => .Superior
    | .Inferior => .Inferior
    | .Unknown => .Unknown

/-- Embedding of `do_push`: finality gate, duplicate check, parent lookup,
proposer lookup, the three verification stages, fork detection, chain
ordering, then dispatch (extend, rebranch, or store the block off-main and
return `Ignored` / `Forked`). -/
def do_push (s : Blockchain) (b : Block) (trusted : Bool) : PushOut :=
  if b.blockNumber ≤ s.policy.lastMacroBlock s.state.mainChain.head.blockNumber then
    .ok .Ignored s [] [] []
  else if (lookupA s.store.infos b.hash).isSome then
    .ok .Known s [] [] []
  else
    match lookupA s.store.infos b.parentHash with
    | none => .err .Orphan s []
    | some prevInfo =>
      match s.getProposerAt b.blockNumber (if b.isMacroB then b.round else b.blockNumber)
          prevInfo.head.seedEntropy with
      | none => .err .Orphan s []
      | some _ =>
        match s.verifyHeader b trusted with
        | some e => .err e s []
        | none =>
          match s.verifyJustification b trusted with
          | some e => .err e s []
          | none =>
            match s.verifyBody b trusted with
            | some e => .err e s []
            | none =>
              match orderChains s b prevInfo with
              | .Extend =>
                extendMain s b.hash (ChainInfo.fromBlock b) prevInfo (detectForks s b)
              | .Superior =>
                rebranch s b.hash (ChainInfo.fromBlock b) (detectForks s b)
              | .Inferior =>
                .ok .Ignored
                  { s with store := putChainInfo s.store b.hash (ChainInfo.fromBlock b) }
                  [] [] (detectForks s b)
              | .Unknown =>
                .ok .Forked
                  { s with store := putChainInfo s.store b.hash (ChainInfo.fromBlock b) }
                  [] [] (detectForks s b)

/-- Public push. -/
def push (s : Blockchain) (b : Block) : PushOut := do_push s b false

/-- Public trusted push (verification stages invoked with the trust flag
set). -/
def trusted_push (s : Blockchain) (b : Block) : PushOut := do_push s b true

/- ### Outcome projections -/

/-- Successful result of an outcome, `none` on error or panic. -/
def resultOf : PushOut → Option PushResult
  | .ok r _ _ _ _ => some r
  | _ => none

/-- Error of an outcome, `none` on success or panic. -/
def errorOf : PushOut → Option PushError
  | .err e _ _ => some e
  | _ => none

/-- Whether the outcome is a panic. -/
def isPanic : PushOut → Bool
  | .panic => true
  | _ => false

/-- Blockchain events notified by an outcome. -/
def eventsOf : PushOut → List BlockchainEvent
  | .ok _ _ ev _ _ => ev
  | _ => []

/-- Block logs notified by an outcome. -/
def logsOf : PushOut → List BlockLog
  | .ok _ _ _ lg _ => lg
  | _ => []

/-- The blockchain after an outcome (the pre-push blockchain stands in for
the state lost in a panic). -/
def chainOf : PushOut → Option Blockchain
  | .ok _ s _ _ _ => some s
  | .err _ s _ => some s
  | .panic => none

/-- The durable store after an outcome. -/
def storeOf (o : PushOut) : Option Store := (chainOf o).map Blockchain.store

/-- The blockchain after `push s b` (unchanged on a panic). -/
def afterPush (s : Blockchain) (b : Block) : Blockchain :=
  match push s b with
  | .ok _ s2 _ _ _ => s2
  | .err _ s2 _ => s2
  | .panic => s

/-- Invariant 1 of the spec: outside a write transaction the accounts root
equals the state root of the main-chain head. -/
def StateRootInv (s : Blockchain) : Prop :=
  s.acc = s.state.mainChain.head.stateRoot

/- ### Concrete scenario: main chain [g, b1, b2], stored fork [b1p, b2p] -/

/-- Genesis-batch macro block at height 0. -/
def blkG : Block :=
  { blockNumber := 0, round := 0, parentHash := 99, stateRoot := 1000,
    seedEntropy := 10, hash := 100, isMacroB := true, isSkipB := false,
    txs := [], validators := some 7 }

/-- Main-chain micro block at height 1. -/
def blk1 : Block :=
  { blockNumber := 1, round := 0, parentHash := 100, stateRoot := 1001,
    seedEntropy := 11, hash := 101, isMacroB := false, isSkipB := false,
    txs := [], validators := none }

/-- Main-chain micro block at height 2 (the head). -/
def blk2 : Block :=
  { blockNumber := 2, round := 0, parentHash := 101, stateRoot := 1002,
    seedEntropy := 12, hash := 102, isMacroB := false, isSkipB := false,
    txs := [], validators := none }

/-- Fork micro block at height 1 (stored off-main). -/
def blk1p : Block :=
  { blockNumber := 1, round := 0, parentHash := 100, stateRoot := 2001,
    seedEntropy := 21, hash := 201, isMacroB := false, isSkipB := false,
    txs := [], validators := none }

/-- Fork micro block at height 2 (stored off-main). -/
def blk2p : Block :=
  { blockNumber := 2, round := 0, parentHash := 201, stateRoot := 2002,
    seedEntropy := 22, hash := 202, isMacroB := false, isSkipB := false,
    txs := [], validators := none }

/-- Fork micro block at height 3, the block whose push triggers the
rebranch. -/
def blk3p : Block :=
  { blockNumber := 3, round := 0, parentHash := 202, stateRoot := 2003,
    seedEntropy := 23, hash := 203, isMacroB := false, isSkipB := false,
    txs := [], validators := none }

/-- Chain infos of the scenario store. -/
def ciG : ChainInfo := { head := blkG, onMainChain := true, mainChainSuccessor := some 101 }

/-- Chain info of `blk1`. -/
def ci1 : ChainInfo := { head := blk1, onMainChain := true, mainChainSuccessor := some 102 }

/-- Chain info of `blk2`. -/
def ci2 : ChainInfo := { head := blk2, onMainChain := true, mainChainSuccessor := none }

/-- Chain info of `blk1p`. -/
def ci1p : ChainInfo := { head := blk1p, onMainChain := false, mainChainSuccessor := none }

/-- Chain info of `blk2p`. -/
def ci2p : ChainInfo := { head := blk2p, onMainChain := false, mainChainSuccessor := none }

/-- The scenario store; the receipt stored for a micro block is its
predecessor's state root, which is what the toy accounts engine needs to
revert exactly. -/
def baseStore : Store :=
  { infos := [(100, ciG), (101, ci1), (102, ci2), (201, ci1p), (202, ci2p)],
    heightIdx := [(0, [100]), (1, [101, 201]), (2, [102, 202])],
    headHash := 102,
    receipts := [(1, 1000), (2, 1001)] }

/-- The scenario in-memory state. -/
def baseState : BlockchainState :=
  { mainChain := ci2, headHash := 102, macroInfo := ciG, macroHeadHash := 100,
    electionHead := blkG, electionHeadHash := 100,
    currentSlots := some 5, previousSlots := some 4 }

/-- The scenario policy: the genesis macro block is the only one below the
heads in play. -/
def basePolicy : Policy :=
  { lastMacroBlock := fun _ => 0, isMacroBlockAt := fun n => n == 0,
    isElectionBlockAt := fun _ => false, epochAt := fun _ => 1,
    maxEpochsStored := 1 }

/-- The scenario blockchain: verification oracles accept, the toy accounts
engine moves the root to the committed block's state root and reverts to
the stored receipt, and the tie-break oracle calls every non-extending
branch superior. -/
def baseChain : Blockchain :=
  { store := baseStore, acc := 1002, state := baseState, policy := basePolicy,
    getProposerAt := fun _ _ _ => some 0,
    verifyHeader := fun _ _ => none,
    verifyJustification := fun _ _ => none,
    verifyBody := fun _ _ => none,
    verifyBlockState := fun _ _ => none,
    commitFn := fun _ b => .ok (b.stateRoot, b.blockNumber * 10),
    revertFn := fun _ _ rcpt => .ok rcpt,
    txInValidityWindow := fun _ => false,
    forkOrder := fun _ _ => .Superior }

/- ### C10: bit/byte round trip -/

/-- C10: for every byte `b`, `byte_to_le_bits b` returns a list of exactly
8 booleans and `byte_from_le_bits (byte_to_le_bits b)` recovers `b`. -/
theorem C10_byte_le_bits_roundtrip :
    ∀ b : Nat, b < 256 →
      (byte_to_le_bits b).length = 8 ∧
        byte_from_le_bits (byte_to_le_bits b) = some b := by
  decide

/-- Witness for C10 at the concrete byte 173. -/
theorem C10_byte_le_bits_roundtrip_witness :
    (byte_to_le_bits 173).length = 8 ∧
      byte_from_le_bits (byte_to_le_bits 173) = some 173 :=
  C10_byte_le_bits_roundtrip 173 (by decide)

/- ### C2: the finality gate fires first -/

/-- C2: a block at or below the last macro block before the head is
`Ignored`, for **every** blockchain — in particular irrespective of whether
the block is already known, of whether its parent is present, and of every
verification oracle: the gate is checked before all of them, and the
blockchain is returned untouched with no event. -/
theorem C2_finality_gate (s : Blockchain) (b : Block)
    (h : b.blockNumber ≤ s.policy.lastMacroBlock s.state.mainChain.head.blockNumber) :
    push s b = .ok .Ignored s [] [] [] := by
  unfold push do_push
  rw [if_pos h]

/-- Witness for C2: `blk1p` (height 1) pushed onto `baseChain` whose policy
finalizes everything up to the head returns `Ignored` even though a
sibling of `blk1p` is known and the store is populated. -/
theorem C2_finality_gate_witness :
    push { baseChain with policy := { basePolicy with lastMacroBlock := fun n => n } } blk1p =
      .ok .Ignored { baseChain with policy := { basePolicy with lastMacroBlock := fun n => n } } [] [] [] :=
  C2_finality_gate _ blk1p (by decide)

/- ### C9: revert_accounts corruption discipline -/

/-- C9: `revert_accounts` returns `Ok` exactly under its preconditions —
accounts hash equal to the micro block's state root, receipts present for
the block's height, and a successful engine revert — and every violation
(state-root mismatch, missing receipts, or an engine revert error) is a
panic, never a returned error. -/
theorem C9_revert_accounts_discipline :
    (∀ (s : Blockchain) (txn : Txn) (b : Block) (rcpt acc2 : Nat),
      b.stateRoot = txn.acc →
      lookupA txn.store.receipts b.blockNumber = some rcpt →
      s.revertFn txn.acc b rcpt = .ok acc2 →
      revert_accounts s txn b = .ok (.reverted b.hash, { txn with acc := acc2 })) ∧
    (∀ (s : Blockchain) (txn : Txn) (b : Block),
      b.stateRoot ≠ txn.acc → revert_accounts s txn b = .panic) ∧
    (∀ (s : Blockchain) (txn : Txn) (b : Block),
      b.stateRoot = txn.acc →
      lookupA txn.store.receipts b.blockNumber = none →
      revert_accounts s txn b = .panic) ∧
    (∀ (s : Blockchain) (txn : Txn) (b : Block) (rcpt e : Nat),
      b.stateRoot = txn.acc →
      lookupA txn.store.receipts b.blockNumber = some rcpt →
      s.revertFn txn.acc b rcpt = .error e →
      revert_accounts s txn b = .panic) := by
  refine ⟨?_, ?_, ?_, ?_⟩
  · intro s txn b rcpt acc2 h1 h2 h3
    simp [revert_accounts, h1, h2, h3]
  · intro s txn b h1
    simp [revert_accounts, h1]
  · intro s txn b h1 h2
    simp [revert_accounts, h1, h2]
  · intro s txn b rcpt e h1 h2 h3
    simp [revert_accounts, h1, h2, h3]

/-- Witness for C9: the four cases at concrete inputs — a successful revert
of `blk2`, a state-root mismatch, the missing receipt of height 3, and a
failing engine revert. -/
theorem C9_revert_accounts_discipline_witness :
    revert_accounts baseChain { store := baseStore, acc := 1002 } blk2 =
      .ok (.reverted 102, { store := baseStore, acc := 1001 }) ∧
    revert_accounts baseChain { store := baseStore, acc := 55 } blk2 = .panic ∧
    revert_accounts baseChain { store := baseStore, acc := 2003 } blk3p = .panic ∧
    revert_accounts { baseChain with revertFn := fun _ _ _ => .error 3 }
      { store := baseStore, acc := 1002 } blk2 = .panic :=
  ⟨C9_revert_accounts_discipline.1 baseChain _ blk2 1001 1001 (by decide) (by decide) rfl,
   C9_revert_accounts_discipline.2.1 baseChain _ blk2 (by decide),
   C9_revert_accounts_discipline.2.2.1 baseChain _ blk3p (by decide) (by decide),
   C9_revert_accounts_discipline.2.2.2 _ _ blk2 1001 3 (by decide) (by decide) rfl⟩

/- ### Characterization lemmas -/

theorem commit_accounts_ok_acc (s : Blockchain) (b : Block) (txn txn2 : Txn) (lg : BlockLog)
    (h : commit_accounts s b txn = .ok (lg, txn2)) : txn2.acc = b.stateRoot := by
  unfold commit_accounts at h
  split at h
  · split at h
    · exact Res.noConfusion h
    · rename_i acc2 txn1 heq
      split at h
      · exact Res.noConfusion h
      · rename_i hroot
        simp only [Res.ok.injEq, Prod.mk.injEq] at h
        obtain ⟨-, h2⟩ := h
        rw [← h2]
        exact (not_ne_iff.mp hroot).symm
  · split at h
    · exact Res.noConfusion h
    · rename_i acc2 rcpt heq
      split at h
      · exact Res.noConfusion h
      · rename_i hroot
        simp only [Res.ok.injEq, Prod.mk.injEq] at h
        obtain ⟨-, h2⟩ := h
        rw [← h2]
        exact (not_ne_iff.mp hroot).symm

theorem check_and_commit_ok_acc (s : Blockchain) (b : Block) (txn txn2 : Txn) (lg : BlockLog)
    (h : check_and_commit s b txn = .ok (lg, txn2)) : txn2.acc = b.stateRoot := by
  unfold check_and_commit at h
  split at h
  · exact Res.noConfusion h
  · split at h
    · exact Res.noConfusion h
    · exact Res.noConfusion h
    · rename_i lg0 txn0 hca
      split at h
      · exact Res.noConfusion h
      · simp only [Res.ok.injEq, Prod.mk.injEq] at h
        obtain ⟨-, h2⟩ := h
        rw [← h2]
        exact commit_accounts_ok_acc s b txn txn0 lg0 hca

theorem extendStore_acc (s : Blockchain) (bh : Nat) (ci1 prev1 : ChainInfo)
    (el : Bool) (bn : Nat) (txn1 : Txn) :
    (extendStore s bh ci1 prev1 el bn txn1).acc = txn1.acc := by
  unfold extendStore
  split <;> rfl

theorem putAll_acc (l : List (Nat × ChainInfo)) (txn : Txn) :
    (putAll txn l).acc = txn.acc := by
  induction l generalizing txn with
  | nil => rfl
  | cons p rest ih => exact ih _

theorem putAll_append (txn : Txn) (l1 l2 : List (Nat × ChainInfo)) :
    putAll txn (l1 ++ l2) = putAll (putAll txn l1) l2 := by
  unfold putAll
  exact List.foldl_append _ _ _ _

theorem putAll_last_lookup (txn : Txn) (l : List (Nat × ChainInfo)) (k : Nat) (v : ChainInfo) :
    lookupA (putAll txn (l ++ [(k, v)])).store.infos k = some v := by
  rw [putAll_append]
  show lookupA (insertA (putAll txn l).store.infos k v) k = some v
  rw [lookupA_insertA]
  simp

theorem extendMain_ok_ex (s : Blockchain) (bh : Nat) (ci pi : ChainInfo)
    (fv : List ForkEvent) (r : PushResult) (s2 : Blockchain)
    (ev : List BlockchainEvent) (lg : List BlockLog) (fv2 : List ForkEvent)
    (h : extendMain s bh ci pi fv = .ok r s2 ev lg fv2) :
    r = .Extended ∧ fv2 = fv ∧
    ∃ bl txn1 st1,
      check_and_commit s ci.head { store := s.store, acc := s.acc } = .ok (bl, txn1) ∧
      macroStateUpdate s.state { ci with onMainChain := true } bh
        (s.policy.isElectionBlockAt (s.state.mainChain.head.blockNumber + 1)) = some st1 ∧
      lg = [bl] ∧
      s2 = { s with
        store := (extendStore s bh { ci with onMainChain := true }
          { pi with mainChainSuccessor := some bh }
          (s.policy.isElectionBlockAt (s.state.mainChain.head.blockNumber + 1))
          (s.state.mainChain.head.blockNumber + 1) txn1).store,
        acc := txn1.acc,
        state := { st1 with mainChain := { ci with onMainChain := true }, headHash := bh } } := by
  unfold extendMain at h
  split at h
  · exact PushOut.noConfusion h
  · exact PushOut.noConfusion h
  · rename_i bl txn1 hcc
    unfold extendFinish at h
    simp only [] at h
    split at h
    · exact PushOut.noConfusion h
    · rename_i st1 hms
      simp only [PushOut.ok.injEq] at h
      obtain ⟨h1, h2, h3, h4, h5⟩ := h
      refine ⟨h1.symm, h5.symm, bl, txn1, st1, hcc, hms, h4.symm, ?_⟩
      rw [← h2]
      have hacc := extendStore_acc s bh { ci with onMainChain := true }
        { pi with mainChainSuccessor := some bh }
        (s.policy.isElectionBlockAt (s.state.mainChain.head.blockNumber + 1))
        (s.state.mainChain.head.blockNumber + 1) txn1
      rw [← hacc]

theorem rebranchFinish_ok_ex (s : Blockchain) (fc rc : List (Nat × ChainInfo))
    (anc : Nat × ChainInfo) (txn2 : Txn) (logs2 : List BlockLog) (fv : List ForkEvent)
    (r : PushResult) (s2 : Blockchain) (ev : List BlockchainEvent) (lg : List BlockLog)
    (fv2 : List ForkEvent)
    (h : rebranchFinish s fc rc anc txn2 logs2 fv = .ok r s2 ev lg fv2) :
    r = .Rebranched ∧ fv2 = fv ∧ lg = logs2 ∧
    ∃ bottom newHead st1,
      fc.getLast? = some bottom ∧
      (annotateFork fc).head? = some newHead ∧
      macroStateUpdate s.state newHead.2 newHead.1
        (s.policy.isElectionBlockAt newHead.2.head.blockNumber) = some st1 ∧
      s2.acc = txn2.acc ∧
      s2.state.mainChain = newHead.2 ∧
      s2.state.headHash = newHead.1 ∧
      s2.policy = s.policy ∧
      s2.store.infos =
        (putAll (putAll (putAll txn2
            (rc.map (fun p => (p.1, { p.2 with onMainChain := false, mainChainSuccessor := none }))))
            [(anc.1, { anc.2 with mainChainSuccessor := some bottom.1 })])
          (annotateFork fc).reverse).store.infos ∧
      ev = [.Rebranched
        ((rc.map (fun p => (p.1, { p.2 with onMainChain := false, mainChainSuccessor := none }))).reverse.map
          (fun p => (p.1, p.2.head)))
        ((annotateFork fc).reverse.map (fun p => (p.1, p.2.head)))] := by
  unfold rebranchFinish at h
  simp only [] at h
  split at h
  · exact PushOut.noConfusion h
  · rename_i bottom hbot
    split at h
    · exact PushOut.noConfusion h
    · rename_i newHead hnh
      split at h
      · exact PushOut.noConfusion h
      · rename_i st1 hms
        simp only [PushOut.ok.injEq] at h
        obtain ⟨h1, h2, h3, h4, h5⟩ := h
        subst h2
        refine ⟨h1.symm, h5.symm, h4.symm, bottom, newHead, st1, hbot, hnh, hms,
          ?_, rfl, rfl, rfl, ?_, h3.symm⟩
        · simp [putAll_acc]
        · rfl

theorem rebranch_ok_ex (s : Blockchain) (bh : Nat) (ci : ChainInfo) (fv : List ForkEvent)
    (r : PushResult) (s2 : Blockchain) (ev : List BlockchainEvent) (lg : List BlockLog)
    (fv2 : List ForkEvent)
    (h : rebranch s bh ci fv = .ok r s2 ev lg fv2) :
    ∃ fc anc rc txn1 logs1 txn2 logs2,
      collectFork s.store (s.store.infos.length + 1) [] (bh, ci) = some (fc, anc) ∧
      ¬(anc.2.head.blockNumber < s.state.macroInfo.head.blockNumber) ∧
      revertMain s (s.store.infos.length + 1) { store := s.store, acc := s.acc }
        (s.state.headHash, s.state.mainChain) anc.1 [] [] = .ok (rc, txn1, logs1) ∧
      applyFork s txn1 fc.reverse logs1 = .ok txn2 logs2 ∧
      rebranchFinish s fc rc anc txn2 logs2 fv = .ok r s2 ev lg fv2 := by
  unfold rebranch at h
  split at h
  · exact PushOut.noConfusion h
  · rename_i fc anc hcf
    split at h
    · exact PushOut.noConfusion h
    · rename_i hguard
      split at h
      · exact PushOut.noConfusion h
      · exact PushOut.noConfusion h
      · rename_i rc txn1 logs1 hrm
        split at h
        · exact PushOut.noConfusion h
        · exact PushOut.noConfusion h
        · rename_i txn2 logs2 haf
          exact ⟨fc, anc, rc, txn1, logs1, txn2, logs2, hcf, hguard, hrm, haf, h⟩

theorem orderChains_extend_parent (s : Blockchain) (b : Block) (pi2 : ChainInfo)
    (h : orderChains s b pi2 = .Extend) : b.parentHash = s.state.headHash := by
  unfold orderChains at h
  split at h
  · assumption
  · split at h <;> exact ChainOrdering.noConfusion h

theorem push_ok_cases (s : Blockchain) (b : Block) (r : PushResult) (s2 : Blockchain)
    (ev : List BlockchainEvent) (lg : List BlockLog) (fv2 : List ForkEvent)
    (h : push s b = .ok r s2 ev lg fv2) :
    (r = .Ignored ∧ s2 = s ∧
      b.blockNumber ≤ s.policy.lastMacroBlock s.state.mainChain.head.blockNumber ∧
      ev = [] ∧ lg = [] ∧ fv2 = []) ∨
    (r = .Known ∧ s2 = s ∧ (lookupA s.store.infos b.hash).isSome ∧
      ev = [] ∧ lg = [] ∧ fv2 = []) ∨
    (¬b.blockNumber ≤ s.policy.lastMacroBlock s.state.mainChain.head.blockNumber ∧
      lookupA s.store.infos b.hash = none ∧
      ∃ pi2, lookupA s.store.infos b.parentHash = some pi2 ∧
        (((r = .Ignored ∨ r = .Forked) ∧ ev = [] ∧ lg = [] ∧
            s2 = { s with store := putChainInfo s.store b.hash (ChainInfo.fromBlock b) }) ∨
          (orderChains s b pi2 = .Extend ∧
            extendMain s b.hash (ChainInfo.fromBlock b) pi2 (detectForks s b) =
              .ok r s2 ev lg fv2) ∨
          (orderChains s b pi2 = .Superior ∧
            rebranch s b.hash (ChainInfo.fromBlock b) (detectForks s b) =
              .ok r s2 ev lg fv2))) := by
  unfold push do_push at h
  split at h
  · rename_i hg
    simp only [PushOut.ok.injEq] at h
    obtain ⟨h1, h2, h3, h4, h5⟩ := h
    exact Or.inl ⟨h1.symm, h2.symm, hg, h3.symm, h4.symm, h5.symm⟩
  · rename_i hg
    split at h
    · rename_i hk
      simp only [PushOut.ok.injEq] at h
      obtain ⟨h1, h2, h3, h4, h5⟩ := h
      exact Or.inr (Or.inl ⟨h1.symm, h2.symm, hk, h3.symm, h4.symm, h5.symm⟩)
    · rename_i hk
      have hknone : lookupA s.store.infos b.hash = none := by
        cases hh : lookupA s.store.infos b.hash with
        | none => rfl
        | some v => rw [hh] at hk; simp at hk
      split at h
      · exact PushOut.noConfusion h
      · rename_i pi2 hpi
        split at h
        · exact PushOut.noConfusion h
        · split at h
          · exact PushOut.noConfusion h
          · split at h
            · exact PushOut.noConfusion h
            · split at h
              · exact PushOut.noConfusion h
              · split at h
                · rename_i hord
                  exact Or.inr (Or.inr ⟨hg, hknone, pi2, hpi, Or.inr (Or.inl ⟨hord, h⟩)⟩)
                · rename_i hord
                  exact Or.inr (Or.inr ⟨hg, hknone, pi2, hpi, Or.inr (Or.inr ⟨hord, h⟩)⟩)
                · simp only [PushOut.ok.injEq] at h
                  obtain ⟨h1, h2, h3, h4, h5⟩ := h
                  exact Or.inr (Or.inr ⟨hg, hknone, pi2, hpi,
                    Or.inl ⟨Or.inl h1.symm, h3.symm, h4.symm, h2.symm⟩⟩)
                · simp only [PushOut.ok.injEq] at h
                  obtain ⟨h1, h2, h3, h4, h5⟩ := h
                  exact Or.inr (Or.inr ⟨hg, hknone, pi2, hpi,
                    Or.inl ⟨Or.inr h1.symm, h3.symm, h4.symm, h2.symm⟩⟩)

theorem extendMain_err (s : Blockchain) (bh : Nat) (ci pi2 : ChainInfo)
    (fv : List ForkEvent) (e : PushError) (s2 : Blockchain) (fv2 : List ForkEvent)
    (h : extendMain s bh ci pi2 fv = .err e s2 fv2) : s2 = s := by
  unfold extendMain at h
  split at h
  · simp only [PushOut.err.injEq] at h
    exact h.2.1.symm
  · exact PushOut.noConfusion h
  · unfold extendFinish at h
    simp only [] at h
    split at h
    · exact PushOut.noConfusion h
    · exact PushOut.noConfusion h

theorem rebranchFinish_not_err (s : Blockchain) (fc rc : List (Nat × ChainInfo))
    (anc : Nat × ChainInfo) (txn2 : Txn) (logs2 : List BlockLog) (fv : List ForkEvent)
    (e : PushError) (s2 : Blockchain) (fv2 : List ForkEvent)
    (h : rebranchFinish s fc rc anc txn2 logs2 fv = .err e s2 fv2) : False := by
  unfold rebranchFinish at h
  simp only [] at h
  split at h
  · exact PushOut.noConfusion h
  · split at h
    · exact PushOut.noConfusion h
    · split at h
      · exact PushOut.noConfusion h
      · exact PushOut.noConfusion h

theorem rebranch_err (s : Blockchain) (bh : Nat) (ci : ChainInfo) (fv : List ForkEvent)
    (e : PushError) (s2 : Blockchain) (fv2 : List ForkEvent)
    (h : rebranch s bh ci fv = .err e s2 fv2) : s2 = s ∨ e = .InvalidFork := by
  unfold rebranch at h
  split at h
  · exact PushOut.noConfusion h
  · split at h
    · simp only [PushOut.err.injEq] at h
      exact Or.inr h.1.symm
    · split at h
      · simp only [PushOut.err.injEq] at h
        exact Or.inl h.2.1.symm
      · exact PushOut.noConfusion h
      · split at h
        · exact PushOut.noConfusion h
        · simp only [PushOut.err.injEq] at h
          exact Or.inr h.1.symm
        · exact absurd h (fun hc => rebranchFinish_not_err _ _ _ _ _ _ _ _ _ _ hc)

theorem push_err_cases (s : Blockchain) (b : Block) (e : PushError) (s2 : Blockchain)
    (fv : List ForkEvent) (h : push s b = .err e s2 fv) : s2 = s ∨ e = .InvalidFork := by
  unfold push do_push at h
  split at h
  · exact PushOut.noConfusion h
  · split at h
    · exact PushOut.noConfusion h
    · split at h
      · simp only [PushOut.err.injEq] at h
        exact Or.inl h.2.1.symm
      · split at h
        · simp only [PushOut.err.injEq] at h
          exact Or.inl h.2.1.symm
        · split at h
          · simp only [PushOut.err.injEq] at h
            exact Or.inl h.2.1.symm
          · split at h
            · simp only [PushOut.err.injEq] at h
              exact Or.inl h.2.1.symm
            · split at h
              · simp only [PushOut.err.injEq] at h
                exact Or.inl h.2.1.symm
              · split at h
                · exact Or.inl (extendMain_err _ _ _ _ _ _ _ _ h)
                · exact rebranch_err _ _ _ _ _ _ _ h
                · exact PushOut.noConfusion h
                · exact PushOut.noConfusion h

theorem collectFork_prefix (store : Store) (fuel : Nat) :
    ∀ (acc : List (Nat × ChainInfo)) (cur : Nat × ChainInfo)
      (fc : List (Nat × ChainInfo)) (anc : Nat × ChainInfo),
      collectFork store fuel acc cur = some (fc, anc) → ∃ suf, fc = acc ++ suf := by
  induction fuel with
  | zero => intro acc cur fc anc h; exact Option.noConfusion h
  | succ n ih =>
    intro acc cur fc anc h
    unfold collectFork at h
    split at h
    · simp only [Option.some.injEq, Prod.mk.injEq] at h
      exact ⟨[], by rw [← h.1]; simp⟩
    · split at h
      · exact Option.noConfusion h
      · obtain ⟨suf, hsuf⟩ := ih _ _ _ _ h
        exact ⟨cur :: suf, by rw [hsuf]; simp⟩

theorem collectFork_head (store : Store) (fuel : Nat) (acc : List (Nat × ChainInfo))
    (cur : Nat × ChainInfo) (fc : List (Nat × ChainInfo)) (anc : Nat × ChainInfo)
    (h : collectFork store fuel acc cur = some (fc, anc))
    (hm : cur.2.onMainChain = false) : ∃ suf, fc = acc ++ cur :: suf := by
  cases fuel with
  | zero => exact Option.noConfusion h
  | succ n =>
    unfold collectFork at h
    rw [hm, if_neg Bool.false_ne_true] at h
    split at h
    · exact Option.noConfusion h
    · obtain ⟨suf, hsuf⟩ := collectFork_prefix store n _ _ _ _ h
      exact ⟨suf, by rw [hsuf]; simp⟩

theorem applyFork_last_acc (s : Blockchain) :
    ∀ (l : List (Nat × ChainInfo)) (x : Nat × ChainInfo) (txn : Txn) (logs : List BlockLog)
      (txn2 : Txn) (logs2 : List BlockLog),
      applyFork s txn (l ++ [x]) logs = .ok txn2 logs2 → txn2.acc = x.2.head.stateRoot := by
  intro l
  induction l with
  | nil =>
    intro x txn logs txn2 logs2 h
    rw [List.nil_append] at h
    unfold applyFork at h
    split at h
    · exact ApplyRes.noConfusion h
    · exact ApplyRes.noConfusion h
    · rename_i lg txn1 hcc
      unfold applyFork at h
      simp only [ApplyRes.ok.injEq] at h
      rw [← h.1]
      exact check_and_commit_ok_acc s x.2.head txn txn1 lg hcc
  | cons y rest ih =>
    intro x txn logs txn2 logs2 h
    rw [List.cons_append] at h
    unfold applyFork at h
    split at h
    · exact ApplyRes.noConfusion h
    · exact ApplyRes.noConfusion h
    · rename_i lg txn1 hcc
      exact ih x txn1 _ txn2 logs2 h

theorem annotateFork_cons_ex (p : Nat × ChainInfo) (rest : List (Nat × ChainInfo)) :
    ∃ t, annotateFork (p :: rest) =
      (p.1, { p.2 with onMainChain := true, mainChainSuccessor := none }) :: t := by
  refine ⟨(rest.zip ((p :: rest).dropLast.map (fun q => some q.1))).map
    (fun q => (q.1.1, { q.1.2 with onMainChain := true, mainChainSuccessor := q.2 })), ?_⟩
  unfold annotateFork forkSuccessors
  simp

/- ### C5: error atomicity -/

/-- C5: every push that fails with an error other than `InvalidFork` leaves
the blockchain — durable store, accounts root and in-memory state alike —
exactly as it was: the write transaction (if any was opened) is aborted, no
chain info is stored for the block, and the head is untouched. -/
theorem C5_error_atomicity (s : Blockchain) (b : Block) (e : PushError)
    (h : errorOf (push s b) = some e) (hne : e ≠ .InvalidFork) :
    afterPush s b = s := by
  unfold afterPush
  cases hp : push s b with
  | ok r s2 ev lg fv =>
    rw [hp] at h
    exact absurd h (by simp [errorOf])
  | panic => rfl
  | err e2 s2 fv =>
    rw [hp] at h
    simp only [errorOf, Option.some.injEq] at h
    subst h
    cases push_err_cases s b e2 s2 fv hp with
    | inl h2 => exact h2
    | inr h2 => exact absurd h2 hne

/-- Witness for C5: pushing a block with the unknown parent hash 777 onto a
blockchain with an empty chain store returns `Orphan` and leaves the store
empty (the whole blockchain value is returned unchanged). -/
theorem C5_error_atomicity_witness :
    errorOf (push { baseChain with
        store := { infos := [], heightIdx := [], headHash := 100, receipts := [] } }
      { blockNumber := 1, round := 0, parentHash := 777, stateRoot := 4000,
        seedEntropy := 41, hash := 666, isMacroB := false, isSkipB := false,
        txs := [], validators := none }) = some .Orphan ∧
    afterPush { baseChain with
        store := { infos := [], heightIdx := [], headHash := 100, receipts := [] } }
      { blockNumber := 1, round := 0, parentHash := 777, stateRoot := 4000,
        seedEntropy := 41, hash := 666, isMacroB := false, isSkipB := false,
        txs := [], validators := none } =
      { baseChain with
        store := { infos := [], heightIdx := [], headHash := 100, receipts := [] } } :=
  ⟨by decide, C5_error_atomicity _ _ .Orphan (by decide) (by decide)⟩

/- ### C1: state-root invariant -/

/-- C1: (i) every push that returns `Ok` — `Extended`, `Rebranched`,
`Forked`, `Ignored` or `Known` — preserves, outside any write transaction,
the equality between the accounts root and the state root of the main-chain
head; (ii) `commit_accounts` enforces it by failing with
`InvalidBlock(AccountsHashMismatch)` whenever the committed accounts hash
differs from the block's state root; (iii) `rebranch` asserts it after
every revert step: a mismatch between the predecessor's state root and the
reverted accounts root is a panic. -/
theorem C1_state_root_invariant :
    (∀ (s : Blockchain) (b : Block), StateRootInv s →
      (resultOf (push s b)).isSome = true → StateRootInv (afterPush s b)) ∧
    (∀ (s : Blockchain) (b : Block) (txn : Txn) (acc2 rcpt : Nat),
      s.commitFn txn.acc b = .ok (acc2, rcpt) → b.stateRoot ≠ acc2 →
      commit_accounts s b txn = .err (.InvalidBlock .AccountsHashMismatch)) ∧
    (∀ (s : Blockchain) (fuel : Nat) (txn : Txn) (cur : Nat × ChainInfo)
      (ancHash : Nat) (chain : List (Nat × ChainInfo)) (logs : List BlockLog)
      (prevInfo : ChainInfo) (lg : BlockLog) (txn1 : Txn),
      cur.1 ≠ ancHash → cur.2.head.isMacroB = false →
      lookupA txn.store.infos cur.2.head.parentHash = some prevInfo →
      revert_accounts s txn cur.2.head = .ok (lg, txn1) →
      prevInfo.head.stateRoot ≠ txn1.acc →
      revertMain s (fuel + 1) txn cur ancHash chain logs = .panic) := by
  refine ⟨?_, ?_, ?_⟩
  · intro s b hInv hOk
    unfold afterPush
    cases hp : push s b with
    | err e s2 fv =>
      rw [hp] at hOk
      exact absurd hOk (by simp [resultOf])
    | panic => exact hInv
    | ok r s2 ev lg fv =>
      rcases push_ok_cases s b r s2 ev lg fv hp with
        ⟨-, h2, -⟩ | ⟨-, h2, -⟩ | ⟨-, -, pi2, -, hcase⟩
      · rw [h2]; exact hInv
      · rw [h2]; exact hInv
      · rcases hcase with ⟨-, -, -, h2⟩ | ⟨-, hext⟩ | ⟨-, hreb⟩
        · rw [h2]; exact hInv
        · obtain ⟨-, -, bl, txn1, st1, hcc, hms, -, hs2⟩ :=
            extendMain_ok_ex _ _ _ _ _ _ _ _ _ _ hext
          have hacc := check_and_commit_ok_acc s (ChainInfo.fromBlock b).head _ txn1 bl hcc
          rw [hs2]
          unfold StateRootInv
          exact hacc
        · obtain ⟨fc, anc, rc, txn1, logs1, txn2, logs2, hcf, hguard, hrm, haf, hfin⟩ :=
            rebranch_ok_ex _ _ _ _ _ _ _ _ _ hreb
          obtain ⟨-, -, -, bottom, newHead, st1, hbot, hnh, hms, hacc, hmc, hhh, hpol, hinfos, hev⟩ :=
            rebranchFinish_ok_ex _ _ _ _ _ _ _ _ _ _ _ _ hfin
          obtain ⟨suf, hfc⟩ :=
            collectFork_head s.store _ [] (b.hash, ChainInfo.fromBlock b) fc anc hcf rfl
          rw [List.nil_append] at hfc
          rw [hfc] at hnh haf
          obtain ⟨t, ht⟩ := annotateFork_cons_ex (b.hash, ChainInfo.fromBlock b) suf
          rw [ht] at hnh
          simp only [List.head?_cons, Option.some.injEq] at hnh
          rw [List.reverse_cons] at haf
          have hacc2 := applyFork_last_acc s _ _ _ _ _ _ haf
          unfold StateRootInv
          rw [hacc, hacc2, hmc, ← hnh]
  · intro s b txn acc2 rcpt hcommit hne
    unfold commit_accounts
    split
    · simp [hcommit, hne]
    · simp [hcommit, hne]
  · intro s fuel txn cur ancHash chain logs prevInfo lg txn1 hne hm hlook hrev hmis
    unfold revertMain
    rw [if_neg hne, hm, if_neg Bool.false_ne_true, hlook, hrev]
    simp [hmis]

/-- Variant of the scenario whose accounts engine commits to a root that
never matches any state root. -/
def chainBadCommit : Blockchain :=
  { baseChain with commitFn := fun _ _ => .ok (42, 0) }

/-- Variant of the scenario whose accounts engine reverts to a wrong
root. -/
def chainBadRevert : Blockchain :=
  { baseChain with revertFn := fun _ _ _ => .ok 77 }

/-- Witness for C1: the invariant after the concrete rebranch push of
`blk3p`; a concrete hash-mismatch commit rejected as
`InvalidBlock(AccountsHashMismatch)`; and a concrete revert step whose
post-revert root disagrees with the predecessor's state root panicking
inside the main-chain revert walk. -/
theorem C1_state_root_invariant_witness :
    StateRootInv (afterPush baseChain blk3p) ∧
    commit_accounts chainBadCommit blk1 { store := baseStore, acc := 1000 } =
      .err (.InvalidBlock .AccountsHashMismatch) ∧
    revertMain chainBadRevert 6 { store := baseStore, acc := 1002 } (102, ci2) 100 [] [] =
      .panic :=
  ⟨C1_state_root_invariant.1 baseChain blk3p rfl (by decide),
   C1_state_root_invariant.2.1 chainBadCommit blk1 { store := baseStore, acc := 1000 } 42 0
     rfl (by decide),
   C1_state_root_invariant.2.2 chainBadRevert 5 { store := baseStore, acc := 1002 } (102, ci2)
     100 [] [] ci1 (.reverted 102) { store := baseStore, acc := 77 }
     (by decide) (by decide) (by decide) rfl (by decide)⟩

/- ### C3: rebranch finality guard -/

/-- C3: (i) every push returning `Rebranched` found a common ancestor at or
above the latest macro block; (ii) when the pipeline reaches `rebranch`
(gate open, unknown block, parent present, proposer found, verification
passed, ordering `Superior`) and the common ancestor sits below the latest
macro block, push fails `InvalidFork` with the blockchain untouched —
before any revert; (iii) under the same circumstances with the guard
passed, a macro block encountered at the start of the revert walk (a
main-chain head that is macro and not the ancestor) is a panic, not a
recoverable error. -/
theorem C3_rebranch_finality_guard :
    (∀ (s : Blockchain) (b : Block),
      resultOf (push s b) = some .Rebranched →
      ∃ fc anc,
        collectFork s.store (s.store.infos.length + 1) [] (b.hash, ChainInfo.fromBlock b) =
          some (fc, anc) ∧
        s.state.macroInfo.head.blockNumber ≤ anc.2.head.blockNumber) ∧
    (∀ (s : Blockchain) (b : Block) (pi2 : ChainInfo) (slot : Nat)
      (fc : List (Nat × ChainInfo)) (anc : Nat × ChainInfo),
      ¬b.blockNumber ≤ s.policy.lastMacroBlock s.state.mainChain.head.blockNumber →
      lookupA s.store.infos b.hash = none →
      lookupA s.store.infos b.parentHash = some pi2 →
      s.getProposerAt b.blockNumber (if b.isMacroB then b.round else b.blockNumber)
        pi2.head.seedEntropy = some slot →
      s.verifyHeader b false = none →
      s.verifyJustification b false = none →
      s.verifyBody b false = none →
      orderChains s b pi2 = .Superior →
      collectFork s.store (s.store.infos.length + 1) [] (b.hash, ChainInfo.fromBlock b) =
        some (fc, anc) →
      anc.2.head.blockNumber < s.state.macroInfo.head.blockNumber →
      push s b = .err .InvalidFork s (detectForks s b)) ∧
    (∀ (s : Blockchain) (b : Block) (pi2 : ChainInfo) (slot : Nat)
      (fc : List (Nat × ChainInfo)) (anc : Nat × ChainInfo),
      ¬b.blockNumber ≤ s.policy.lastMacroBlock s.state.mainChain.head.blockNumber →
      lookupA s.store.infos b.hash = none →
      lookupA s.store.infos b.parentHash = some pi2 →
      s.getProposerAt b.blockNumber (if b.isMacroB then b.round else b.blockNumber)
        pi2.head.seedEntropy = some slot →
      s.verifyHeader b false = none →
      s.verifyJustification b false = none →
      s.verifyBody b false = none →
      orderChains s b pi2 = .Superior →
      collectFork s.store (s.store.infos.length + 1) [] (b.hash, ChainInfo.fromBlock b) =
        some (fc, anc) →
      ¬anc.2.head.blockNumber < s.state.macroInfo.head.blockNumber →
      s.state.headHash ≠ anc.1 →
      s.state.mainChain.head.isMacroB = true →
      push s b = .panic) := by
  refine ⟨?_, ?_, ?_⟩
  · intro s b hres
    cases hp : push s b with
    | err e s2 fv => rw [hp] at hres; exact absurd hres (by simp [resultOf])
    | panic => rw [hp] at hres; exact absurd hres (by simp [resultOf])
    | ok r s2 ev lg fv =>
      rw [hp] at hres
      simp only [resultOf, Option.some.injEq] at hres
      subst hres
      rcases push_ok_cases s b _ s2 ev lg fv hp with
        ⟨h1, -⟩ | ⟨h1, -⟩ | ⟨-, -, pi2, -, hcase⟩
      · exact absurd h1 (by simp)
      · exact absurd h1 (by simp)
      · rcases hcase with ⟨h1, -⟩ | ⟨-, hext⟩ | ⟨-, hreb⟩
        · rcases h1 with h1 | h1 <;> exact absurd h1 (by simp)
        · obtain ⟨h1, -⟩ := extendMain_ok_ex _ _ _ _ _ _ _ _ _ _ hext
          exact absurd h1 (by simp)
        · obtain ⟨fc, anc, rc, txn1, logs1, txn2, logs2, hcf, hguard, -⟩ :=
            rebranch_ok_ex _ _ _ _ _ _ _ _ _ hreb
          exact ⟨fc, anc, hcf, Nat.not_lt.mp hguard⟩
  · intro s b pi2 slot fc anc h1 h2 h3 h4 h5 h6 h7 h8 h9 h10
    unfold push do_push
    rw [if_neg h1, h2]
    simp only [Option.isSome_none, Bool.false_eq_true, if_false, h3, h4, h5, h6, h7, h8]
    unfold rebranch
    rw [h9]
    simp only [if_pos h10]
  · intro s b pi2 slot fc anc h1 h2 h3 h4 h5 h6 h7 h8 h9 h10 h11 h12
    unfold push do_push
    rw [if_neg h1, h2]
    simp only [Option.isSome_none, Bool.false_eq_true, if_false, h3, h4, h5, h6, h7, h8]
    unfold rebranch
    rw [h9]
    simp only [if_neg h10]
    unfold revertMain
    rw [if_neg h11, h12]
    simp

/-- A later macro block (height 5) standing in as `macro_info` to make the
finality guard fire. -/
def blkM5 : Block :=
  { blockNumber := 5, round := 0, parentHash := 104, stateRoot := 1005,
    seedEntropy := 15, hash := 500, isMacroB := true, isSkipB := false,
    txs := [], validators := some 9 }

/-- Scenario whose latest macro block (height 5) lies above the common
ancestor of the fork. -/
def chainGuarded : Blockchain :=
  { baseChain with state := { baseState with
      macroInfo := { head := blkM5, onMainChain := true, mainChainSuccessor := none } } }

/-- A macro block sitting at the head of the main chain, distinct from the
fork's common ancestor. -/
def blkMacroHead : Block :=
  { blockNumber := 2, round := 0, parentHash := 101, stateRoot := 1002,
    seedEntropy := 32, hash := 300, isMacroB := true, isSkipB := false,
    txs := [], validators := some 8 }

/-- Scenario whose main-chain head is a macro block off the fork's path, so
the revert walk immediately encounters a macro block. -/
def chainMacroHead : Blockchain :=
  { baseChain with state := { baseState with
      mainChain := { head := blkMacroHead, onMainChain := true, mainChainSuccessor := none },
      headHash := 300 } }

/-- Witness for C3: the concrete rebranch of `blk3p` has its ancestor (the
genesis macro block) at the finality frontier; with a macro block at
height 5 the same push fails `InvalidFork` untouched; with a macro head off
the fork path the same push panics. -/
theorem C3_rebranch_finality_guard_witness :
    (∃ fc anc,
      collectFork baseChain.store (baseChain.store.infos.length + 1) []
          (blk3p.hash, ChainInfo.fromBlock blk3p) = some (fc, anc) ∧
      baseChain.state.macroInfo.head.blockNumber ≤ anc.2.head.blockNumber) ∧
    push chainGuarded blk3p = .err .InvalidFork chainGuarded (detectForks chainGuarded blk3p) ∧
    push chainMacroHead blk3p = .panic :=
  ⟨C3_rebranch_finality_guard.1 baseChain blk3p (by decide),
   C3_rebranch_finality_guard.2.1 chainGuarded blk3p ci2p 0
     [(203, ChainInfo.fromBlock blk3p), (202, ci2p), (201, ci1p)] (100, ciG)
     (by decide) (by decide) (by decide) rfl rfl rfl rfl (by decide) (by decide) (by decide),
   C3_rebranch_finality_guard.2.2 chainMacroHead blk3p ci2p 0
     [(203, ChainInfo.fromBlock blk3p), (202, ci2p), (201, ci1p)] (100, ciG)
     (by decide) (by decide) (by decide) rfl rfl rfl rfl (by decide) (by decide) (by decide)
     (by decide) rfl⟩

theorem putChainInfo_lookup_self (st : Store) (h : Nat) (ci : ChainInfo) :
    lookupA (putChainInfo st h ci).infos h = some ci := by
  show lookupA (insertA st.infos h ci) h = some ci
  rw [lookupA_insertA]
  simp

theorem putChainInfo_lookup_other (st : Store) (h h2 : Nat) (ci : ChainInfo)
    (hne : h ≠ h2) : lookupA (putChainInfo st h ci).infos h2 = lookupA st.infos h2 := by
  show lookupA (insertA st.infos h ci) h2 = lookupA st.infos h2
  rw [lookupA_insertA, if_neg hne]

theorem extendStore_lookup_self (s : Blockchain) (bh : Nat) (ci1 prev1 : ChainInfo)
    (el : Bool) (bn : Nat) (txn1 : Txn)
    (hne : ci1.head.parentHash ≠ bh)
    (hep : el = true →
      s.policy.epochAt bn - s.policy.maxEpochsStored ≤ s.policy.epochAt ci1.head.blockNumber) :
    lookupA (extendStore s bh ci1 prev1 el bn txn1).store.infos bh = some ci1 := by
  have hbase :
      lookupA (setHead (putChainInfo (putChainInfo txn1.store bh ci1) ci1.head.parentHash prev1)
        bh).infos bh = some ci1 := by
    show lookupA (putChainInfo (putChainInfo txn1.store bh ci1) ci1.head.parentHash prev1).infos
      bh = some ci1
    rw [putChainInfo_lookup_other _ _ _ _ hne]
    exact putChainInfo_lookup_self _ _ _
  unfold extendStore
  cases el with
  | false => simpa using hbase
  | true =>
    simp only [if_pos]
    show lookupA (pruneEpoch s.policy _ _).infos bh = some ci1
    unfold pruneEpoch
    exact lookupA_filter _ _ _ _ hbase (by simp [hep rfl])

/- ### C8: frame property of non-rebranching storage -/

/-- C8: a push returning `Forked` (classification `Unknown`), or returning
`Ignored` while the finality gate is open (hence via classification
`Inferior`), mutates nothing but the chain store, to which exactly the
block's chain info is written off-main-chain inside a committed write
transaction; in-memory state, accounts root, head pointer and receipts are
untouched and no event or block log is emitted. -/
theorem C8_store_only_frame :
    (∀ (s : Blockchain) (b : Block),
      resultOf (push s b) = some .Forked →
      afterPush s b = { s with store := putChainInfo s.store b.hash (ChainInfo.fromBlock b) } ∧
      eventsOf (push s b) = [] ∧ logsOf (push s b) = []) ∧
    (∀ (s : Blockchain) (b : Block),
      ¬b.blockNumber ≤ s.policy.lastMacroBlock s.state.mainChain.head.blockNumber →
      resultOf (push s b) = some .Ignored →
      afterPush s b = { s with store := putChainInfo s.store b.hash (ChainInfo.fromBlock b) } ∧
      eventsOf (push s b) = [] ∧ logsOf (push s b) = []) := by
  constructor
  · intro s b hres
    cases hp : push s b with
    | err e s2 fv => rw [hp] at hres; exact absurd hres (by simp [resultOf])
    | panic => rw [hp] at hres; exact absurd hres (by simp [resultOf])
    | ok r s2 ev lg fv =>
      rw [hp] at hres
      simp only [resultOf, Option.some.injEq] at hres
      subst hres
      unfold afterPush
      rw [hp]
      rcases push_ok_cases s b _ s2 ev lg fv hp with
        ⟨h1, -⟩ | ⟨h1, -⟩ | ⟨-, -, pi2, -, hcase⟩
      · exact absurd h1 (by simp)
      · exact absurd h1 (by simp)
      · rcases hcase with ⟨-, hev, hlg, h2⟩ | ⟨-, hext⟩ | ⟨-, hreb⟩
        · exact ⟨h2, by simp [eventsOf, hev], by simp [logsOf, hlg]⟩
        · obtain ⟨h1, -⟩ := extendMain_ok_ex _ _ _ _ _ _ _ _ _ _ hext
          exact absurd h1 (by simp)
        · obtain ⟨fc, anc, rc, txn1, logs1, txn2, logs2, -, -, -, -, hfin⟩ :=
            rebranch_ok_ex _ _ _ _ _ _ _ _ _ hreb
          obtain ⟨h1, -⟩ := rebranchFinish_ok_ex _ _ _ _ _ _ _ _ _ _ _ _ hfin
          exact absurd h1 (by simp)
  · intro s b hg hres
    cases hp : push s b with
    | err e s2 fv => rw [hp] at hres; exact absurd hres (by simp [resultOf])
    | panic => rw [hp] at hres; exact absurd hres (by simp [resultOf])
    | ok r s2 ev lg fv =>
      rw [hp] at hres
      simp only [resultOf, Option.some.injEq] at hres
      subst hres
      unfold afterPush
      rw [hp]
      rcases push_ok_cases s b _ s2 ev lg fv hp with
        ⟨-, -, h1, -⟩ | ⟨h1, -⟩ | ⟨-, -, pi2, -, hcase⟩
      · exact absurd h1 hg
      · exact absurd h1 (by simp)
      · rcases hcase with ⟨-, hev, hlg, h2⟩ | ⟨-, hext⟩ | ⟨-, hreb⟩
        · exact ⟨h2, by simp [eventsOf, hev], by simp [logsOf, hlg]⟩
        · obtain ⟨h1, -⟩ := extendMain_ok_ex _ _ _ _ _ _ _ _ _ _ hext
          exact absurd h1 (by simp)
        · obtain ⟨fc, anc, rc, txn1, logs1, txn2, logs2, -, -, -, -, hfin⟩ :=
            rebranch_ok_ex _ _ _ _ _ _ _ _ _ hreb
          obtain ⟨h1, -⟩ := rebranchFinish_ok_ex _ _ _ _ _ _ _ _ _ _ _ _ hfin
          exact absurd h1 (by simp)

/-- Scenario whose tie-break oracle classifies every non-extending branch
as an unknown side branch. -/
def chainUnknownClass : Blockchain :=
  { baseChain with forkOrder := fun _ _ => .Unknown }

/-- Scenario whose tie-break oracle classifies every non-extending branch
as inferior. -/
def chainInferiorClass : Blockchain :=
  { baseChain with forkOrder := fun _ _ => .Inferior }

/-- Witness for C8: pushing `blk3p` under an `Unknown` classification gives
`Forked` and only the store write; under an `Inferior` classification it
gives `Ignored` with the same frame. -/
theorem C8_store_only_frame_witness :
    (afterPush chainUnknownClass blk3p =
      { chainUnknownClass with
        store := putChainInfo chainUnknownClass.store blk3p.hash (ChainInfo.fromBlock blk3p) } ∧
      eventsOf (push chainUnknownClass blk3p) = [] ∧
      logsOf (push chainUnknownClass blk3p) = []) ∧
    (afterPush chainInferiorClass blk3p =
      { chainInferiorClass with
        store := putChainInfo chainInferiorClass.store blk3p.hash (ChainInfo.fromBlock blk3p) } ∧
      eventsOf (push chainInferiorClass blk3p) = [] ∧
      logsOf (push chainInferiorClass blk3p) = []) :=
  ⟨C8_store_only_frame.1 chainUnknownClass blk3p (by decide),
   C8_store_only_frame.2 chainInferiorClass blk3p (by decide) (by decide)⟩

/- ### C4: idempotence of push (corrected) -/

/-- Scenario whose policy finalizes every height up to the head, so the
finality gate swallows low blocks. -/
def chainAllFinal : Blockchain :=
  { baseChain with policy := { basePolicy with lastMacroBlock := fun n => n } }

/-- Counterexample to C4 as stated: pushing `blk1p` (height 1, below the
finality frontier of `chainAllFinal`) returns `Ok(Ignored)` without storing
the block, and the immediately repeated push returns `Ok(Ignored)` again —
not `Known`. -/
theorem C4_push_idempotence_counterexample :
    (resultOf (push chainAllFinal blk1p)).isSome = true ∧
    resultOf (push (afterPush chainAllFinal blk1p) blk1p) = some .Ignored ∧
    resultOf (push (afterPush chainAllFinal blk1p) blk1p) ≠ some .Known := by
  refine ⟨by decide, by decide, by decide⟩

/-- C4 (amended): if `push s b` returns `Ok` and `b` is above the finality
frontier of the resulting head (which excludes exactly the `Ignored`
produced by the finality gate, including a just-accepted macro block at the
frontier), then — provided `b` carries the successor height of the head
whenever it extends the head, as header verification guarantees — an
immediately repeated push returns `Ok(Known)` with no event, no block log
and no fork event. -/
theorem C4_push_idempotence_amended (s : Blockchain) (b : Block)
    (hok : (resultOf (push s b)).isSome = true)
    (hgate : ¬b.blockNumber ≤
      (afterPush s b).policy.lastMacroBlock (afterPush s b).state.mainChain.head.blockNumber)
    (hext : b.parentHash = s.state.headHash →
      b.blockNumber = s.state.mainChain.head.blockNumber + 1) :
    push (afterPush s b) b = .ok .Known (afterPush s b) [] [] [] := by
  cases hp : push s b with
  | err e s2 fv =>
    rw [hp] at hok
    exact absurd hok (by simp [resultOf])
  | panic =>
    rw [hp] at hok
    exact absurd hok (by simp [resultOf])
  | ok r s2 ev lg fv =>
    have ha : afterPush s b = s2 := by unfold afterPush; rw [hp]
    rw [ha] at hgate ⊢
    have hlookup : (lookupA s2.store.infos b.hash).isSome = true := by
      rcases push_ok_cases s b r s2 ev lg fv hp with
        ⟨-, h2, hgc, -⟩ | ⟨-, h2, hk, -⟩ | ⟨-, hknone, pi2, hpi, hcase⟩
      · rw [h2] at hgate; exact absurd hgc hgate
      · rw [h2]; exact hk
      · have hnepar : b.parentHash ≠ b.hash := by
          intro hc
          rw [hc, hknone] at hpi
          exact Option.noConfusion hpi
        rcases hcase with ⟨-, -, -, h2⟩ | ⟨hord, hextm⟩ | ⟨-, hreb⟩
        · rw [h2]
          show (lookupA (putChainInfo s.store b.hash (ChainInfo.fromBlock b)).infos b.hash).isSome = true
          rw [putChainInfo_lookup_self]
          rfl
        · obtain ⟨-, -, bl, txn1, st1, hcc, hms, -, hs2⟩ :=
            extendMain_ok_ex _ _ _ _ _ _ _ _ _ _ hextm
          have hpar := orderChains_extend_parent s b pi2 hord
          have hnum := hext hpar
          rw [hs2]
          have hlk := extendStore_lookup_self s b.hash
            { ChainInfo.fromBlock b with onMainChain := true }
            { pi2 with mainChainSuccessor := some b.hash }
            (s.policy.isElectionBlockAt (s.state.mainChain.head.blockNumber + 1))
            (s.state.mainChain.head.blockNumber + 1) txn1 hnepar
            (by
              intro h
              show s.policy.epochAt (s.state.mainChain.head.blockNumber + 1) -
                  s.policy.maxEpochsStored ≤ s.policy.epochAt b.blockNumber
              rw [hnum]
              exact Nat.sub_le _ _)
          rw [hlk]
          rfl
        · obtain ⟨fc, anc, rc, txn1, logs1, txn2, logs2, hcf, -, -, haf, hfin⟩ :=
            rebranch_ok_ex _ _ _ _ _ _ _ _ _ hreb
          obtain ⟨-, -, -, bottom, newHead, st1, hbot, hnh, hms, hacc, hmc, hhh, hpol, hinfos, hev⟩ :=
            rebranchFinish_ok_ex _ _ _ _ _ _ _ _ _ _ _ _ hfin
          obtain ⟨suf, hfc⟩ :=
            collectFork_head s.store _ [] (b.hash, ChainInfo.fromBlock b) fc anc hcf rfl
          rw [List.nil_append] at hfc
          obtain ⟨t, ht⟩ := annotateFork_cons_ex (b.hash, ChainInfo.fromBlock b) suf
          rw [hinfos, hfc, ht, List.reverse_cons, putAll_last_lookup]
          rfl
    unfold push do_push
    rw [if_neg hgate, if_pos hlookup]

/-- Witness for the amended C4: after the successful rebranch push of
`blk3p`, the repeated push returns `Known` with no events. -/
theorem C4_push_idempotence_amended_witness :
    push (afterPush baseChain blk3p) blk3p =
      .ok .Known (afterPush baseChain blk3p) [] [] [] :=
  C4_push_idempotence_amended baseChain blk3p (by decide) (by decide) (by decide)

/- ### C7: Rebranched event contents and order (corrected) -/

/-- Counterexample to C7 as stated: the rebranch of `[g, b1, b2]` onto
`[b1p, b2p, b3p]` does **not** emit `reverted = [b2, b1]` (tip-first) — the
source iterates the revert chain reversed, so the reverted list comes out
bottom-up. -/
theorem C7_rebranched_event_counterexample :
    resultOf (push baseChain blk3p) = some .Rebranched ∧
    eventsOf (push baseChain blk3p) ≠
      [.Rebranched [(102, blk2), (101, blk1)]
        [(201, blk1p), (202, blk2p), (203, blk3p)]] := by
  refine ⟨by decide, by decide⟩

/-- C7 (amended): the successful rebranch of the main chain `[g, b1, b2]`
onto the superior branch `[b1p, b2p, b3p]` emits exactly one
`Rebranched(reverted, adopted)` event with `reverted = [b1, b2]`
(bottom-up) and `adopted = [b1p, b2p, b3p]` (bottom-up), and the block-log
stream carries all revert logs (tip-first) before all adoption logs
(bottom-up). -/
theorem C7_rebranched_event_amended :
    resultOf (push baseChain blk3p) = some .Rebranched ∧
    eventsOf (push baseChain blk3p) =
      [.Rebranched [(101, blk1), (102, blk2)]
        [(201, blk1p), (202, blk2p), (203, blk3p)]] ∧
    logsOf (push baseChain blk3p) =
      [.reverted 102, .reverted 101, .applied 201, .applied 202, .applied 203] := by
  refine ⟨by decide, by decide, by decide⟩

/- ### C6: rebranch cleanup after partial re-commit (corrected) -/

/-- Scenario whose accounts engine refuses to commit the lower fork block
`blk1p`, making the rebranch fail on the first re-committed block. -/
def chainFailLow : Blockchain :=
  { baseChain with
      commitFn := fun _ b =>
        if b.hash == 201 then .error 9 else .ok (b.stateRoot, b.blockNumber * 10) }

/-- The store the claim as stated predicts: every fork block at and above
the offender removed under its **own** stored block height. -/
def ownHeightStore : Store :=
  removeChainInfo (removeChainInfo (removeChainInfo baseStore 201 1) 202 2) 203 3

/-- Counterexample to C6 as stated: when the rebranch onto
`[b1p, b2p, b3p]` fails at `b1p`, push returns `InvalidFork`, but the store
is **not** the one obtained by removing each fork block under its own
height — the source passes the failing block's height for every removal, so
the height-index entry of `b2p` at height 2 survives. -/
theorem C6_rebranch_cleanup_counterexample :
    errorOf (push chainFailLow blk3p) = some .InvalidFork ∧
    storeOf (push chainFailLow blk3p) ≠ some ownHeightStore ∧
    storeOf (push chainFailLow blk3p) =
      some (removeAll baseStore
        [(201, ci1p), (202, ci2p), (203, ChainInfo.fromBlock blk3p)] 1) := by
  refine ⟨by decide, by decide, by decide⟩

/-- C6 (amended): when `check_and_commit` fails on a fork block during a
rebranch, the write transaction is aborted (all its effects are gone), a
fresh committed write transaction removes the chain info of the failing
fork block and of every fork block above it — each removal under the
**failing** block's stored height, as the source passes — and push returns
`Err(InvalidFork)` with the in-memory state untouched. -/
theorem C6_rebranch_cleanup_amended (s : Blockchain) (b : Block) (pi2 : ChainInfo)
    (slot : Nat) (fc : List (Nat × ChainInfo)) (anc : Nat × ChainInfo)
    (rc : List (Nat × ChainInfo)) (txn1 : Txn) (logs1 : List BlockLog)
    (fb : Nat × ChainInfo) (rest : List (Nat × ChainInfo))
    (h1 : ¬b.blockNumber ≤ s.policy.lastMacroBlock s.state.mainChain.head.blockNumber)
    (h2 : lookupA s.store.infos b.hash = none)
    (h3 : lookupA s.store.infos b.parentHash = some pi2)
    (h4 : s.getProposerAt b.blockNumber (if b.isMacroB then b.round else b.blockNumber)
      pi2.head.seedEntropy = some slot)
    (h5 : s.verifyHeader b false = none)
    (h6 : s.verifyJustification b false = none)
    (h7 : s.verifyBody b false = none)
    (h8 : orderChains s b pi2 = .Superior)
    (h9 : collectFork s.store (s.store.infos.length + 1) [] (b.hash, ChainInfo.fromBlock b) =
      some (fc, anc))
    (h10 : ¬anc.2.head.blockNumber < s.state.macroInfo.head.blockNumber)
    (h11 : revertMain s (s.store.infos.length + 1) { store := s.store, acc := s.acc }
      (s.state.headHash, s.state.mainChain) anc.1 [] [] = .ok (rc, txn1, logs1))
    (h12 : applyFork s txn1 fc.reverse logs1 = .fail fb rest) :
    push s b = .err .InvalidFork
      { s with store := removeAll s.store (fb :: rest) fb.2.head.blockNumber }
      (detectForks s b) := by
  unfold push do_push
  rw [if_neg h1, h2]
  simp only [Option.isSome_none, Bool.false_eq_true, if_false, h3, h4, h5, h6, h7, h8]
  unfold rebranch
  rw [h9]
  simp only [if_neg h10]
  rw [h11]
  simp only []
  rw [h12]

/-- Witness for the amended C6: the concrete failing rebranch of `blk3p`
under `chainFailLow`, whose fork blocks 201, 202 and 203 are all removed
under the failing block's height 1. -/
theorem C6_rebranch_cleanup_amended_witness :
    push chainFailLow blk3p = .err .InvalidFork
      { chainFailLow with
          store := removeAll chainFailLow.store
            ((201, ci1p) :: [(202, ci2p), (203, ChainInfo.fromBlock blk3p)])
            ci1p.head.blockNumber }
      (detectForks chainFailLow blk3p) :=
  C6_rebranch_cleanup_amended chainFailLow blk3p ci2p 0
    [(203, ChainInfo.fromBlock blk3p), (202, ci2p), (201, ci1p)] (100, ciG)
    [(102, ci2), (101, ci1)] { store := baseStore, acc := 1000 }
    [.reverted 102, .reverted 101] (201, ci1p) [(202, ci2p), (203, ChainInfo.fromBlock blk3p)]
    (by decide) (by decide) (by decide) rfl rfl rfl rfl (by decide) (by decide) (by decide)
    rfl rfl
